import Mathlib

set_option autoImplicit false

/-!
Shallow embedding of the repo_analyzer program (src/repo_analyzer/analyzer.py and
src/repo_analyzer/repo.py) and proofs about it.

Datetimes are embedded as natural numbers counting seconds from a fixed origin
(the proleptic Gregorian ordinal of Python datetime, times 86400, plus the
time-of-day seconds).  For valid datetimes this encoding is strictly monotone in
chronological order, so Python datetime comparison is Nat comparison, and
`timedelta(days = n)` subtraction is subtraction of `n * 86400`.  Nat
subtraction clamps at 0 where Python would raise OverflowError (dates before
year 1); no theorem below depends on that region.
-/

namespace RepoAnalyzer

/-- Errors raised by the embedded program: `analyzerError` models
`AnalyzerError` from analyzer.py (the InputError of the spec), `repositoryError`
models `RepositoryError` from repo.py (the QueryError of the spec), and
`typeError` models the Python TypeError raised by comparing `None` with a
datetime. -/
inductive PyError where
  | analyzerError (msg : String)
  | repositoryError (msg : String)
  | typeError
  deriving Repr, DecidableEq

/-- Gregorian leap-year test, as in Python datetime. -/
def isLeapYear (y : Nat) : Bool :=
  y % 4 == 0 && (y % 100 != 0 || y % 400 == 0)

/-- Number of days in month `m` (1-12) of a leap (`true`) or common year. -/
def monthDays (leap : Bool) (m : Nat) : Nat :=
  match m with
  | 1 => 31 | 2 => if leap then 29 else 28 | 3 => 31 | 4 => 30
  | 5 => 31 | 6 => 30 | 7 => 31 | 8 => 31
  | 9 => 30 | 10 => 31 | 11 => 30 | 12 => 31
  | _ => 0

/-- Number of days in month `m` of year `y`, as in Python datetime. -/
def daysInMonth (y m : Nat) : Nat :=
  monthDays (isLeapYear y) m

/-- Days in the months strictly before month `m`. -/
def daysBeforeMonth (leap : Bool) (m : Nat) : Nat :=
  ((List.range (m - 1)).map (fun i => monthDays leap (i + 1))).sum

/-- Proleptic Gregorian ordinal of the date `y-m-d`, where January 1 of year 1
has ordinal 1 (Python date.toordinal). -/
def toOrdinal (y m d : Nat) : Nat :=
  365 * (y - 1) + (y - 1) / 4 - (y - 1) / 100 + (y - 1) / 400
    + daysBeforeMonth (isLeapYear y) m + d

/-- Encoding of the datetime `y-m-d h:mi:s` as seconds. -/
def epochOf (y m d h mi s : Nat) : Nat :=
  toOrdinal y m d * 86400 + h * 3600 + mi * 60 + s

/-- Constructor validation of Python `datetime(y, m, d, h, mi, s)`: field
ranges as checked by datetime, returning the encoded value or `none` for a
ValueError. -/
def mkDatetime (y m d h mi s : Nat) : Option Nat :=
  if 1 ≤ y && y ≤ 9999 && 1 ≤ m && m ≤ 12 && 1 ≤ d && d ≤ daysInMonth y m
      && h ≤ 23 && mi ≤ 59 && s ≤ 59 then
    some (epochOf y m d h mi s)
  else
    none

/-- Value of a decimal digit character, `none` for non-digits. -/
def digit? (c : Char) : Option Nat :=
  if c.isDigit then some (c.toNat - 48) else none

/-- CPython \_strptime matches `%Y` as exactly four decimal digits. -/
def parseYear : List Char → Option (Nat × List Char)
  | c1 :: c2 :: c3 :: c4 :: rest =>
    match digit? c1, digit? c2, digit? c3, digit? c4 with
    | some d1, some d2, some d3, some d4 =>
      some (((d1 * 10 + d2) * 10 + d3) * 10 + d4, rest)
    | _, _, _, _ => none
  | _ => none

/-- CPython \_strptime matches the numeric fields `%m %d %H %M %S` by a regex
alternation that accepts a two-digit form (value constrained by `twoOk`) or a
one-digit form (value constrained by `oneOk`).  In the formats used here every
such field is followed by a non-digit literal or the end of the string, so the
greedy two-digits-first strategy below coincides with regex backtracking. -/
def parseField (twoOk oneOk : Nat → Bool) : List Char → Option (Nat × List Char)
  | c1 :: c2 :: rest =>
    match digit? c1, digit? c2 with
    | some d1, some d2 =>
      let v := d1 * 10 + d2
      if twoOk v then some (v, rest)
      else if oneOk d1 then some (d1, c2 :: rest)
      else none
    | some d1, none => if oneOk d1 then some (d1, c2 :: rest) else none
    | none, _ => none
  | [c1] =>
    match digit? c1 with
    | some d1 => if oneOk d1 then some (d1, []) else none
    | none => none
  | [] => none

/-- Literal characters of the format string: CPython compiles the whole format
regex with IGNORECASE, so letters such as T and Z match either case. -/
def matchLitChar (p : Char) : List Char → Option (List Char)
  | c :: rest => if c.toLower == p.toLower then some rest else none
  | [] => none

/-- Field regex of `%m`: `1[0-2]|0[1-9]|[1-9]`. -/
def monthTwoOk (v : Nat) : Bool := 1 ≤ v && v ≤ 12

/-- One-digit alternative of `%m` and `%d`: `[1-9]`. -/
def oneToNine (v : Nat) : Bool := 1 ≤ v && v ≤ 9

/-- Field regex of `%d`: `3[01]|[12]\d|0[1-9]|[1-9]`. -/
def dayTwoOk (v : Nat) : Bool := 1 ≤ v && v ≤ 31

/-- Field regex of `%H`: `2[0-3]|[0-1]\d|\d`. -/
def hourTwoOk (v : Nat) : Bool := v ≤ 23

/-- Field regex of `%M`: `[0-5]\d|\d`. -/
def minuteTwoOk (v : Nat) : Bool := v ≤ 59

/-- Field regex of `%S`: `6[0-1]|[0-5]\d|\d` (leap seconds are accepted
lexically and rejected by the datetime constructor). -/
def secondTwoOk (v : Nat) : Bool := v ≤ 61

/-- One-digit alternative of `%H`, `%M`, `%S`: any digit. -/
def anyDigit (_ : Nat) : Bool := true

/-- Python `datetime.strptime(s, "%Y-%m-%d")`: full-string match of the format
regex followed by datetime constructor validation; `none` models ValueError. -/
def strptimeInput (s : List Char) : Option Nat := do
  let (y, s) ← parseYear s
  let s ← matchLitChar '-' s
  let (m, s) ← parseField monthTwoOk oneToNine s
  let s ← matchLitChar '-' s
  let (d, s) ← parseField dayTwoOk oneToNine s
  match s with
  | [] => mkDatetime y m d 0 0 0
  | _ => none

/-- Python `datetime.strptime(s, "%Y-%m-%dT%H:%M:%SZ")`. -/
def strptimeApi (s : List Char) : Option Nat := do
  let (y, s) ← parseYear s
  let s ← matchLitChar '-' s
  let (m, s) ← parseField monthTwoOk oneToNine s
  let s ← matchLitChar '-' s
  let (d, s) ← parseField dayTwoOk oneToNine s
  let s ← matchLitChar 'T' s
  let (h, s) ← parseField hourTwoOk anyDigit s
  let s ← matchLitChar ':' s
  let (mi, s) ← parseField minuteTwoOk anyDigit s
  let s ← matchLitChar ':' s
  let (sec, s) ← parseField secondTwoOk anyDigit s
  let s ← matchLitChar 'Z' s
  match s with
  | [] => mkDatetime y m d h mi sec
  | _ => none

/-- Analyzer.\_parse\_time: empty (falsy) input yields `None`; otherwise the
string is parsed with the format chosen by `source`, and a ValueError becomes
`AnalyzerError("Incorrect date format")`. -/
def parse_time (timeString : String) (source : String) : Except PyError (Option Nat) :=
  if timeString.isEmpty then
    .ok none
  else
    match (if source == "input" then strptimeInput timeString.toList
           else strptimeApi timeString.toList) with
    | some dt => .ok (some dt)
    | none => .error (.analyzerError "Incorrect date format")

/-- Matching of the regex `github\.com/([^/]+)/([^\/?]+)` (with IGNORECASE) at
the start of `s`: the literal, then a maximal nonempty run of non-slash
characters, a slash, and a maximal nonempty run of characters that are neither
slash nor question mark.  Both runs exclude the character that ends them, so
regex backtracking cannot produce a different result and the greedy reading
below is exact. -/
def matchLit : List Char → List Char → Option (List Char)
  | [], s => some s
  | _ :: _, [] => none
  | p :: ps, c :: cs => if c.toLower == p.toLower then matchLit ps cs else none

/-- Maximal nonempty run of characters satisfying `f`, with the rest. -/
def span1 (f : Char → Bool) (s : List Char) : Option (List Char × List Char) :=
  match s.takeWhile f with
  | [] => none
  | t => some (t, s.dropWhile f)

/-- Literal slash between the two capture groups of the URL regex. -/
def expectSlash : List Char → Option (List Char)
  | '/' :: r => some r
  | _ => none

/-- One attempt of the URL regex at the current position. -/
def matchAt (s : List Char) : Option (String × String) := do
  let rest ← matchLit "github.com/".toList s
  let (owner, rest) ← span1 (fun c => !(c == '/')) rest
  let rest ← expectSlash rest
  let (proj, _) ← span1 (fun c => !(c == '/') && !(c == '?')) rest
  pure (String.mk owner, String.mk proj)

/-- Leftmost match: `re.findall` scans candidate start positions left to
right; the first successful attempt yields the first match. -/
def findFirstMatch : List Char → Option (String × String)
  | [] => none
  | c :: cs =>
    match matchAt (c :: cs) with
    | some r => some r
    | none => findFirstMatch cs

/-- Analyzer.\_parse\_url: the first match of the pattern yields the owner and
project pair; with no match the IndexError on `[0]` becomes
`AnalyzerError("Incorrect repository URL")`. -/
def parse_url (repoUrl : String) : Except PyError (String × String) :=
  match findFirstMatch repoUrl.toList with
  | some r => .ok r
  | none => .error (.analyzerError "Incorrect repository URL")

/-- Pull-request or issue record as consumed by Analyzer.\_summarize: the
`created_at` and `state` fields of the raw API object. -/
structure Element where
  created_at : String
  state : String
  deriving Repr, DecidableEq

/-- Configured date window of the Analyzer: the parsed `--date-from` and
`--date-to` bounds (absent or an encoded datetime). -/
structure Window where
  date_from : Option Nat
  date_to : Option Nat
  deriving Repr, DecidableEq

/-- First disjunct of Analyzer.\_\_filter\_by\_date:
`self.__date_from and date < self.__date_from`.  A `None` date compared with a
present bound raises TypeError; an absent bound is falsy and short-circuits. -/
def lowViolation (w : Window) (date : Option Nat) : Except PyError Bool :=
  match w.date_from, date with
  | none, _ => .ok false
  | some _, none => .error .typeError
  | some f, some d => .ok (decide (d < f))

/-- Second disjunct of Analyzer.\_\_filter\_by\_date:
`self.__date_to and date > self.__date_to`, evaluated only when the first
disjunct is falsy. -/
def highViolation (w : Window) (date : Option Nat) : Except PyError Bool :=
  match w.date_to, date with
  | none, _ => .ok false
  | some _, none => .error .typeError
  | some t, some d => .ok (decide (d > t))

/-- Analyzer.\_\_filter\_by\_date: Python evaluates
`(date_from and date < date_from) or (date_to and date > date_to)` with
short-circuiting and returns the negation. -/
def filter_by_date (w : Window) (date : Option Nat) : Except PyError Bool :=
  match lowViolation w date with
  | .error e => .error e
  | .ok true => .ok false
  | .ok false =>
    match highViolation w date with
    | .error e => .error e
    | .ok true => .ok false
    | .ok false => .ok true

/-- Propagation of a Python exception out of a subexpression: evaluate the
first computation, and on success feed its value to the continuation. -/
def exceptBind {α β : Type} (x : Except PyError α) (f : α → Except PyError β) :
    Except PyError β :=
  match x with
  | .error e => .error e
  | .ok a => f a

theorem exceptBind_ok {α β : Type} (a : α) (f : α → Except PyError β) :
    exceptBind (.ok a) f = f a := rfl

theorem exceptBind_error {α β : Type} (e : PyError) (f : α → Except PyError β) :
    exceptBind (.error e) f = .error e := rfl


/-- Python comparison `created_at < deadline` of the open branch: TypeError
when the left side is `None`. -/
def pyLtDeadline (created : Option Nat) (deadline : Nat) : Except PyError Bool :=
  match created with
  | none => .error .typeError
  | some d => .ok (decide (d < deadline))

theorem pyLtDeadline_some (d dl : Nat) :
    pyLtDeadline (some d) dl = .ok (decide (d < dl)) := rfl

/-- Loop of Analyzer.\_summarize over the elements, carrying the three
counters. -/
def summarizeFrom (w : Window) (deadline : Nat) :
    List Element → Nat → Nat → Nat → Except PyError (Nat × Nat × Nat)
  | [], opened, closed, stale => .ok (opened, closed, stale)
  | e :: rest, opened, closed, stale =>
    exceptBind (parse_time e.created_at "api") (fun created =>
      exceptBind (filter_by_date w created) (fun keep =>
        if keep then
          if e.state == "open" then
            exceptBind (pyLtDeadline created deadline) (fun isStale =>
              summarizeFrom w deadline rest (opened + 1) closed
                (if isStale then stale + 1 else stale))
          else
            summarizeFrom w deadline rest opened (closed + 1) stale
        else
          summarizeFrom w deadline rest opened closed stale))

/-- Analyzer.\_summarize: `deadline = datetime.now() - timedelta(days = stale_days)`
is computed once, before the loop; `now` is the encoded current datetime. -/
def summarize (w : Window) (now staleDays : Nat) (elements : List Element) :
    Except PyError (Nat × Nat × Nat) :=
  summarizeFrom w (now - staleDays * 86400) elements 0 0 0

/-- Commit record as consumed by Analyzer.get\_contributors: the `author`
field is `None` or an object whose `login` field is read. -/
structure Commit where
  author : Option String
  deriving Repr, DecidableEq

/-- One `rating[login] += 1` on the insertion-ordered counter list: an
existing key keeps its position, a new key is appended (defaultdict
insertion order). -/
def bump : List (String × Nat) → String → List (String × Nat)
  | [], login => [(login, 1)]
  | (k, v) :: rest, login =>
    if k = login then (k, v + 1) :: rest
    else (k, v) :: bump rest login

/-- One iteration of the counting loop of Analyzer.get\_contributors: a commit
with a falsy `author` is skipped, the rest increment the counter keyed by
`author["login"]`. -/
def tallyStep (acc : List (String × Nat)) (commit : Commit) : List (String × Nat) :=
  match commit.author with
  | none => acc
  | some login => bump acc login

/-- Counting loop of Analyzer.get\_contributors over all commits.  The
resulting list is `list(rating.items())` in insertion order. -/
def tally (commits : List Commit) : List (String × Nat) :=
  commits.foldl tallyStep []

/-- Comparison of `rating.sort(key=lambda x: x[1], reverse=True)`: descending
by count.  Python sort is stable; `List.mergeSort` with this comparison is the
same stable descending sort. -/
def contribLE (a b : String × Nat) : Bool := b.2 ≤ a.2

/-- Aggregation part of Analyzer.get\_contributors (the raw commit list is its
input): tally by login, stable sort descending by count, and truncate to
`count` when `count` is truthy. -/
def get_contributors (commits : List Commit) (count : Nat) : List (String × Nat) :=
  let rating := (tally commits).mergeSort contribLE
  if count ≠ 0 then rating.take count else rating

/-- HTTP response of one page request, as consumed by Repository.\_query:
status code, body text, and the decoded JSON array of records. -/
structure Response (R : Type) where
  status : Nat
  text : String
  json : List R

/-- Repository.\_query: a non-200 status raises
`RepositoryError("API request error: " + body)`, otherwise the decoded body is
returned. -/
def query {R : Type} (resp : Response R) : Except PyError (List R) :=
  if resp.status ≠ 200 then
    .error (.repositoryError ("API request error: " ++ resp.text))
  else
    .ok resp.json

/-- Repository.\_\_page\_size. -/
def PAGE_SIZE : Nat := 100

/-- Page size chosen by Repository.\_get\_all\_pages:
`max_results if max_results and max_results < page_size else page_size`. -/
def effPageSize (maxResults : Nat) : Nat :=
  if maxResults ≠ 0 ∧ maxResults < PAGE_SIZE then maxResults else PAGE_SIZE

/-- The `while True` loop of Repository.\_get\_all\_pages.  `pages p` is the
response the endpoint gives to the request for page `p`; `fuel` bounds the
number of iterations we are willing to unfold (the source loop is unbounded,
so exhausted fuel returns `none`).  On normal exit the result carries the
accumulated data and the last page number requested; pages are requested
consecutively from the starting page, so with start 1 the last page number
equals the number of page requests issued. -/
def getAllPagesFrom {R : Type} (pages : Nat → Response R) (pageSize maxResults : Nat) :
    Nat → Nat → List R → Except PyError (Option (List R × Nat))
  | 0, _, _ => .ok none
  | fuel + 1, page, acc =>
    exceptBind (query (pages page)) (fun pageData =>
      if pageData.length < pageSize ∨ (maxResults ≠ 0 ∧ maxResults ≤ (acc ++ pageData).length) then
        .ok (some (acc ++ pageData, page))
      else
        getAllPagesFrom pages pageSize maxResults fuel (page + 1) (acc ++ pageData))

/-- Repository.\_get\_all\_pages: page size selection, the paging loop from
page 1, and final truncation to `max_results` when it is truthy.  The second
component of a normal result is the number of page requests issued
(instrumentation; the source returns only the data). -/
def get_all_pages {R : Type} (pages : Nat → Response R) (maxResults fuel : Nat) :
    Except PyError (Option (List R × Nat)) :=
  match getAllPagesFrom pages (effPageSize maxResults) maxResults fuel 1 [] with
  | .error e => .error e
  | .ok none => .ok none
  | .ok (some (data, requests)) =>
    .ok (some ((if maxResults ≠ 0 then data.take maxResults else data), requests))

/-! Lemmas about the URL matcher. -/

theorem matchLit_sound : ∀ (pat s rest : List Char), matchLit pat s = some rest →
    ∃ pre, s = pre ++ rest ∧ pre.map Char.toLower = pat.map Char.toLower
  | [], s, rest, h => by
    refine ⟨[], ?_, rfl⟩
    simpa [matchLit] using h
  | p :: ps, [], rest, h => by simp [matchLit] at h
  | p :: ps, c :: cs, rest, h => by
    by_cases hc : c.toLower == p.toLower
    · obtain ⟨pre, hpre, hmap⟩ := matchLit_sound ps cs rest (by simpa [matchLit, hc] using h)
      exact ⟨c :: pre, by simp [hpre], by simp [hmap, eq_of_beq hc]⟩
    · simp [matchLit, hc] at h

theorem span1_sound (f : Char → Bool) (s t r : List Char) (h : span1 f s = some (t, r)) :
    s = t ++ r ∧ t ≠ [] ∧ ∀ c ∈ t, f c := by
  unfold span1 at h
  rcases ht : s.takeWhile f with _ | ⟨c, cs⟩
  · rw [ht] at h; exact absurd h (by simp)
  · rw [ht] at h
    obtain ⟨rfl, rfl⟩ : t = c :: cs ∧ r = s.dropWhile f := by
      constructor <;> cases h <;> rfl
    refine ⟨?_, by simp, ?_⟩
    · rw [← ht, List.takeWhile_append_dropWhile]
    · intro x hx
      exact List.mem_takeWhile_imp (ht ▸ hx)

theorem expectSlash_sound (s r : List Char) (h : expectSlash s = some r) : s = '/' :: r := by
  unfold expectSlash at h
  split at h
  · cases h; rfl
  · cases h

theorem matchAt_sound (s : List Char) (owner proj : String)
    (h : matchAt s = some (owner, proj)) :
    ∃ lit own pr rest,
      s = lit ++ own ++ '/' :: pr ++ rest
      ∧ lit.map Char.toLower = "github.com/".toList
      ∧ owner = String.mk own ∧ own ≠ [] ∧ (∀ c ∈ own, ¬ c = '/')
      ∧ proj = String.mk pr ∧ pr ≠ [] ∧ (∀ c ∈ pr, ¬ c = '/' ∧ ¬ c = '?') := by
  unfold matchAt at h
  simp only [bind, Option.bind_eq_some, Option.pure_def, Option.some.injEq] at h
  obtain ⟨s1, h1, ⟨own, s2⟩, h2, s3, h3, ⟨pr, s4⟩, h4, hpair⟩ := h
  obtain ⟨rfl, rfl⟩ : String.mk own = owner ∧ String.mk pr = proj := by
    refine ⟨congrArg Prod.fst hpair, congrArg Prod.snd hpair⟩
  obtain ⟨lit, rfl, hlit⟩ := matchLit_sound _ _ _ h1
  obtain ⟨rfl, hown0, hownall⟩ := span1_sound _ _ _ _ h2
  obtain rfl := expectSlash_sound _ _ h3
  obtain ⟨rfl, hpr0, hprall⟩ := span1_sound _ _ _ _ h4
  refine ⟨lit, own, pr, s4, by simp, ?_, rfl, hown0, ?_, rfl, hpr0, ?_⟩
  · rw [hlit]
    decide
  · intro c hc
    simpa using hownall c hc
  · intro c hc
    have := hprall c hc
    constructor
    · intro hcon
      rw [hcon] at this
      exact absurd this (by decide)
    · intro hcon
      rw [hcon] at this
      exact absurd this (by decide)

theorem findFirstMatch_sound : ∀ (s : List Char) (r : String × String),
    findFirstMatch s = some r → ∃ pre suf, s = pre ++ suf ∧ matchAt suf = some r
  | [], r, h => by simp [findFirstMatch] at h
  | c :: cs, r, h => by
    unfold findFirstMatch at h
    rcases hm : matchAt (c :: cs) with _ | r'
    · rw [hm] at h
      obtain ⟨pre, suf, hsplit, hmatch⟩ := findFirstMatch_sound cs r h
      exact ⟨c :: pre, suf, by simp [hsplit], hmatch⟩
    · rw [hm] at h
      cases h
      exact ⟨[], c :: cs, by simp, hm⟩

/-- C6: repository-URL parsing extracts the owner and project from a URL
containing a (case-insensitive) `github.com/owner/project` segment, where the
owner is a nonempty run without slash and the project a nonempty run without
slash or question mark; URLs without such a segment fail with
`AnalyzerError("Incorrect repository URL")`.  In particular the two example
URLs of the spec behave as stated. -/
theorem claim_C6 :
    parse_url "https://github.com/octocat/Hello-World" = .ok ("octocat", "Hello-World")
    ∧ parse_url "https://example.com/not/github"
        = .error (.analyzerError "Incorrect repository URL")
    ∧ ∀ url owner proj, parse_url url = .ok (owner, proj) →
        ∃ pre lit own pr rest,
          url.toList = pre ++ lit ++ own ++ '/' :: pr ++ rest
          ∧ lit.map Char.toLower = "github.com/".toList
          ∧ owner = String.mk own ∧ own ≠ [] ∧ (∀ c ∈ own, ¬ c = '/')
          ∧ proj = String.mk pr ∧ pr ≠ [] ∧ (∀ c ∈ pr, ¬ c = '/' ∧ ¬ c = '?') := by
  refine ⟨by rfl, by rfl, ?_⟩
  intro url owner proj h
  unfold parse_url at h
  rcases hm : findFirstMatch url.toList with _ | r
  · rw [hm] at h
    cases h
  · rw [hm] at h
    cases h
    obtain ⟨pre, suf, hsplit, hmatch⟩ := findFirstMatch_sound _ _ hm
    obtain ⟨lit, own, pr, rest, hsuf, hlit, howner, hown0, hownall, hproj, hpr0, hprall⟩ :=
      matchAt_sound _ _ _ hmatch
    exact ⟨pre, lit, own, pr, rest, by rw [hsplit, hsuf]; simp,
      hlit, howner, hown0, hownall, hproj, hpr0, hprall⟩

/-- Witness for C6: the soundness part applied to a concrete URL. -/
theorem claim_C6_witness :
    ∃ pre lit own pr rest,
      ("github.com/a/b" : String).toList = pre ++ lit ++ own ++ '/' :: pr ++ rest
      ∧ lit.map Char.toLower = "github.com/".toList
      ∧ ("a" : String) = String.mk own ∧ own ≠ [] ∧ (∀ c ∈ own, ¬ c = '/')
      ∧ ("b" : String) = String.mk pr ∧ pr ≠ [] ∧ (∀ c ∈ pr, ¬ c = '/' ∧ ¬ c = '?') :=
  claim_C6.2.2 "github.com/a/b" "a" "b" (by rfl)

/-! Lemmas about the strptime embedding. -/

/-- Decimal digit character of `n % 10`. -/
def digitChar : Nat → Char
  | 0 => '0' | 1 => '1' | 2 => '2' | 3 => '3' | 4 => '4'
  | 5 => '5' | 6 => '6' | 7 => '7' | 8 => '8' | _ => '9'

/-- Two-digit zero-padded decimal rendering of `n ≤ 99`. -/
def pad2 (n : Nat) : List Char := [digitChar (n / 10 % 10), digitChar (n % 10)]

/-- Four-digit zero-padded decimal rendering of `n ≤ 9999`. -/
def pad4 (n : Nat) : List Char :=
  [digitChar (n / 1000 % 10), digitChar (n / 100 % 10), digitChar (n / 10 % 10),
    digitChar (n % 10)]

/-- The literal pattern `YYYY-MM-DD` of the spec: exactly four digits, a dash,
two digits, a dash, two digits. -/
def isStrictYYYYMMDD (s : String) : Bool :=
  match s.toList with
  | [y1, y2, y3, y4, c1, m1, m2, c2, d1, d2] =>
    y1.isDigit && y2.isDigit && y3.isDigit && y4.isDigit && c1 == '-'
      && m1.isDigit && m2.isDigit && c2 == '-' && d1.isDigit && d2.isDigit
  | _ => false

/-- The literal pattern `YYYY-MM-DDTHH:MM:SSZ` of the spec. -/
def isStrictApiFormat (s : String) : Bool :=
  match s.toList with
  | [y1, y2, y3, y4, c1, m1, m2, c2, d1, d2, t, h1, h2, c3, mi1, mi2, c4, s1, s2, z] =>
    y1.isDigit && y2.isDigit && y3.isDigit && y4.isDigit && c1 == '-'
      && m1.isDigit && m2.isDigit && c2 == '-' && d1.isDigit && d2.isDigit
      && t == 'T' && h1.isDigit && h2.isDigit && c3 == ':'
      && mi1.isDigit && mi2.isDigit && c4 == ':' && s1.isDigit && s2.isDigit && z == 'Z'
  | _ => false

theorem digit?_digitChar : ∀ n, n < 10 → digit? (digitChar n) = some n := by decide

theorem parseYear_pad4 (y : Nat) (hy : y ≤ 9999) (rest : List Char) :
    parseYear (pad4 y ++ rest) = some (y, rest) := by
  have h1 := digit?_digitChar (y / 1000 % 10) (Nat.mod_lt _ (by norm_num))
  have h2 := digit?_digitChar (y / 100 % 10) (Nat.mod_lt _ (by norm_num))
  have h3 := digit?_digitChar (y / 10 % 10) (Nat.mod_lt _ (by norm_num))
  have h4 := digit?_digitChar (y % 10) (Nat.mod_lt _ (by norm_num))
  simp only [pad4, List.cons_append, List.nil_append, parseYear, h1, h2, h3, h4,
    Option.some.injEq, Prod.mk.injEq, and_true]
  omega

theorem parseField_pad2 (twoOk oneOk : Nat → Bool) (n : Nat) (h2 : twoOk n = true)
    (hn : n ≤ 99) (rest : List Char) :
    parseField twoOk oneOk (pad2 n ++ rest) = some (n, rest) := by
  have ha := digit?_digitChar (n / 10 % 10) (Nat.mod_lt _ (by norm_num))
  have hb := digit?_digitChar (n % 10) (Nat.mod_lt _ (by norm_num))
  have hv : n / 10 % 10 * 10 + n % 10 = n := by omega
  simp only [pad2, List.cons_append, List.nil_append, parseField, ha, hb, hv, h2,
    if_true]

theorem daysInMonth_le (y m : Nat) : daysInMonth y m ≤ 31 := by
  unfold daysInMonth monthDays
  split <;> first | omega | (split <;> omega)

theorem matchLitChar_self (c : Char) (rest : List Char) :
    matchLitChar c (c :: rest) = some rest := by
  simp [matchLitChar]

theorem mkDatetime_valid (y m d h mi s : Nat) (hy1 : 1 ≤ y) (hy : y ≤ 9999)
    (hm1 : 1 ≤ m) (hm : m ≤ 12) (hd1 : 1 ≤ d) (hd : d ≤ daysInMonth y m)
    (hh : h ≤ 23) (hmi : mi ≤ 59) (hs : s ≤ 59) :
    mkDatetime y m d h mi s = some (epochOf y m d h mi s) := by
  unfold mkDatetime
  split
  · rfl
  · rename_i hfalse
    exfalso
    simp only [Bool.and_eq_true, decide_eq_true_eq] at hfalse
    exact hfalse ⟨⟨⟨⟨⟨⟨⟨⟨hy1, hy⟩, hm1⟩, hm⟩, hd1⟩, hd⟩, hh⟩, hmi⟩, hs⟩

theorem strptimeInput_pad (y m d : Nat) (hy1 : 1 ≤ y) (hy : y ≤ 9999)
    (hm1 : 1 ≤ m) (hm : m ≤ 12) (hd1 : 1 ≤ d) (hd : d ≤ daysInMonth y m) :
    strptimeInput (pad4 y ++ '-' :: (pad2 m ++ '-' :: (pad2 d ++ [])))
      = some (epochOf y m d 0 0 0) := by
  have hmo : monthTwoOk m = true := by
    simp only [monthTwoOk, Bool.and_eq_true, decide_eq_true_eq]
    omega
  have hda : dayTwoOk d = true := by
    have := daysInMonth_le y m
    simp only [dayTwoOk, Bool.and_eq_true, decide_eq_true_eq]
    omega
  unfold strptimeInput
  rw [parseYear_pad4 y hy]
  simp only [Option.bind_eq_bind, Option.some_bind]
  rw [matchLitChar_self]
  simp only [Option.some_bind]
  rw [parseField_pad2 monthTwoOk oneToNine m hmo (by omega)]
  simp only [Option.some_bind]
  rw [matchLitChar_self]
  simp only [Option.some_bind]
  rw [parseField_pad2 dayTwoOk oneToNine d hda
    (by have := daysInMonth_le y m; omega)]
  simp only [Option.some_bind]
  exact mkDatetime_valid y m d 0 0 0 hy1 hy hm1 hm hd1 hd (by omega) (by omega) (by omega)

/-- Zero-padded rendering `YYYY-MM-DD` of a date. -/
def fmtDate (y m d : Nat) : String :=
  String.mk (pad4 y ++ '-' :: (pad2 m ++ '-' :: (pad2 d ++ [])))

theorem fmtDate_not_empty (y m d : Nat) : (fmtDate y m d).isEmpty = false := by
  rcases he : (fmtDate y m d).isEmpty with _ | _
  · rfl
  · exfalso
    have : fmtDate y m d = "" := (String.isEmpty_iff _).mp (by rw [he])
    simp [fmtDate, pad4, String.ext_iff] at this

/-- C7 (amended): date parsing returns an absent date for empty input and is
otherwise decided by Python strptime, which is lenient: with `source="input"`
every valid calendar date rendered as `YYYY-MM-DD` is accepted, but so are
renderings with one-digit month or day such as `"2023-1-5"`; the API format
behaves likewise (`"2023-01-15T10:00:00Z"` is accepted); every parse failure
of a non-empty string is `AnalyzerError("Incorrect date format")`, and an
`ok none` result happens only for empty input. -/
theorem claim_C7 :
    (∀ src, parse_time "" src = .ok none)
    ∧ (∀ y m d, 1 ≤ y → y ≤ 9999 → 1 ≤ m → m ≤ 12 → 1 ≤ d → d ≤ daysInMonth y m →
        parse_time (fmtDate y m d) "input" = .ok (some (epochOf y m d 0 0 0)))
    ∧ parse_time "2023-1-5" "input" = .ok (some (epochOf 2023 1 5 0 0 0))
    ∧ parse_time "2023-01-15T10:00:00Z" "api" = .ok (some (epochOf 2023 1 15 10 0 0))
    ∧ parse_time "not-a-date" "input" = .error (.analyzerError "Incorrect date format")
    ∧ parse_time "not-a-date" "api" = .error (.analyzerError "Incorrect date format")
    ∧ ∀ s src, (parse_time s src = .ok none → s = "")
        ∧ ∀ er, parse_time s src = .error er → er = .analyzerError "Incorrect date format" := by
  refine ⟨fun src => rfl, ?_, rfl, rfl, rfl, rfl, ?_⟩
  · intro y m d hy1 hy hm1 hm hd1 hd
    unfold parse_time
    rw [fmtDate_not_empty]
    simp only [Bool.false_eq_true, if_false]
    have hsrc : (("input" : String) == "input") = true := by decide
    rw [hsrc, if_pos rfl]
    have htl : (fmtDate y m d).toList = pad4 y ++ '-' :: (pad2 m ++ '-' :: (pad2 d ++ [])) := rfl
    rw [htl, strptimeInput_pad y m d hy1 hy hm1 hm hd1 hd]
  · intro s src
    unfold parse_time
    split
    · rename_i hemp
      exact ⟨fun _ => (String.isEmpty_iff s).mp hemp, fun er h => (nomatch h)⟩
    · split
      · exact ⟨fun h => (nomatch h), fun er h => (nomatch h)⟩
      · exact ⟨fun h => (nomatch h), fun er h => by cases h; rfl⟩

/-- Counterexample to C7 as stated: the string `"2023-1-5"` is not of the
day-granularity form `YYYY-MM-DD`, yet `source="input"` parsing accepts it. -/
theorem claim_C7_cex :
    parse_time "2023-1-5" "input" = .ok (some (epochOf 2023 1 5 0 0 0))
    ∧ isStrictYYYYMMDD "2023-1-5" = false :=
  ⟨rfl, rfl⟩

/-- Witness for C7: the completeness part at a concrete valid date, and the
error-shape part at a concrete unparsable string. -/
theorem claim_C7_witness :
    parse_time (fmtDate 1999 12 31) "input" = .ok (some (epochOf 1999 12 31 0 0 0)) :=
  claim_C7.2.1 1999 12 31 (by decide) (by decide) (by decide) (by decide) (by decide)
    (by decide)

/-! Characterization of summarize. -/

/-- Parsed API date of an element, collapsing parse errors to `none`. -/
def apiDate (e : Element) : Option Nat :=
  match parse_time e.created_at "api" with
  | .ok d => d
  | .error _ => none

/-- Whether the `created_at` field of the element parses to an actual date. -/
def apiDateOk (e : Element) : Bool :=
  match parse_time e.created_at "api" with
  | .ok (some _) => true
  | _ => false

/-- Whether the `created_at` field of the element fails to parse. -/
def apiParseFails (e : Element) : Bool :=
  match parse_time e.created_at "api" with
  | .error _ => true
  | _ => false

/-- The in-window predicate of the spec: from is absent or ts is at least
from, and to is absent or ts is at most to (bounds inclusive). -/
def inWindow (w : Window) (d : Nat) : Bool :=
  (match w.date_from with
   | none => true
   | some f => decide (f ≤ d))
  && (match w.date_to with
      | none => true
      | some t => decide (d ≤ t))

/-- In-window test applied to the parsed date of an element. -/
def inWindowElem (w : Window) (e : Element) : Bool :=
  match apiDate e with
  | some d => inWindow w d
  | none => false

/-- Whether the element has state `"open"`. -/
def isOpenElem (e : Element) : Bool := e.state == "open"

/-- Whether the parsed date of an element is strictly before the deadline. -/
def beforeDeadline (deadline : Nat) (e : Element) : Bool :=
  match apiDate e with
  | some d => decide (d < deadline)
  | none => false

theorem apiDate_eq (e : Element) (v : Option Nat)
    (h : parse_time e.created_at "api" = .ok v) : apiDate e = v := by
  unfold apiDate
  rw [h]

theorem parse_time_error_msg (s src : String) (er : PyError)
    (h : parse_time s src = .error er) : er = .analyzerError "Incorrect date format" := by
  unfold parse_time at h
  split at h
  · cases h
  · split at h
    · cases h
    · cases h; rfl

theorem parse_time_ok_none (s src : String) (h : parse_time s src = .ok none) :
    s = "" := by
  unfold parse_time at h
  split at h
  · rename_i hemp
    exact (String.isEmpty_iff s).mp hemp
  · split at h
    · cases h
    · cases h

theorem filter_by_date_some (w : Window) (d : Nat) :
    filter_by_date w (some d) = .ok (inWindow w d) := by
  rcases w with ⟨_ | f, _ | t⟩
  · rfl
  · by_cases h2 : d ≤ t
    · have hgt : decide (d > t) = false := by simp; omega
      have hle : decide (d ≤ t) = true := by simp [h2]
      simp [filter_by_date, lowViolation, highViolation, inWindow, hgt, hle]
    · have hgt : decide (d > t) = true := by simp; omega
      have hle : decide (d ≤ t) = false := by simp [h2]
      simp [filter_by_date, lowViolation, highViolation, inWindow, hgt, hle]
  · by_cases h1 : f ≤ d
    · have hlt : decide (d < f) = false := by simp; omega
      have hge : decide (f ≤ d) = true := by simp [h1]
      simp [filter_by_date, lowViolation, highViolation, inWindow, hlt, hge]
    · have hlt : decide (d < f) = true := by simp; omega
      have hge : decide (f ≤ d) = false := by simp [h1]
      simp [filter_by_date, lowViolation, highViolation, inWindow, hlt, hge]
  · by_cases h1 : f ≤ d <;> by_cases h2 : d ≤ t
    · have hlt : decide (d < f) = false := by simp; omega
      have hgt : decide (d > t) = false := by simp; omega
      have hge : decide (f ≤ d) = true := by simp [h1]
      have hle : decide (d ≤ t) = true := by simp [h2]
      simp [filter_by_date, lowViolation, highViolation, inWindow, hlt, hgt, hge, hle]
    · have hlt : decide (d < f) = false := by simp; omega
      have hgt : decide (d > t) = true := by simp; omega
      have hle : decide (d ≤ t) = false := by simp [h2]
      simp [filter_by_date, lowViolation, highViolation, inWindow, hlt, hgt, hle]
    · have hlt : decide (d < f) = true := by simp; omega
      have hge : decide (f ≤ d) = false := by simp [h1]
      simp [filter_by_date, lowViolation, highViolation, inWindow, hlt, hge]
    · have hlt : decide (d < f) = true := by simp; omega
      have hge : decide (f ≤ d) = false := by simp [h1]
      simp [filter_by_date, lowViolation, highViolation, inWindow, hlt, hge]

/-- One successful run of the summarize loop adds to the accumulators exactly
the counts of open in-window, and stale among them; a successful run never
outputs other values for the first and third counters, regardless of elements
whose dates parse to `None`. -/
theorem summarizeFrom_ok_inv (w : Window) (deadline : Nat) :
    ∀ (l : List Element) (o0 c0 s0 o c s : Nat),
      summarizeFrom w deadline l o0 c0 s0 = .ok (o, c, s) →
      o = o0 + l.countP (fun e => inWindowElem w e && isOpenElem e)
      ∧ s = s0 + l.countP
          (fun e => inWindowElem w e && isOpenElem e && beforeDeadline deadline e)
      ∧ c0 ≤ c
  | [], o0, c0, s0, o, c, s, h => by
    cases h
    simp
  | e :: rest, o0, c0, s0, o, c, s, h => by
    rw [summarizeFrom] at h
    rcases hp : parse_time e.created_at "api" with er | created
    · rw [hp, exceptBind_error] at h
      cases h
    · rw [hp] at h
      simp only [exceptBind_ok] at h
      have hdate := apiDate_eq e created hp
      rcases created with _ | d
      · rcases hf : filter_by_date w none with er | keep
        · rw [hf, exceptBind_error] at h
          cases h
        · rw [hf] at h
          simp only [exceptBind_ok] at h
          rcases keep with _ | _
          · rw [if_neg (by decide : ¬ ((false : Bool) = true))] at h
            have ih := summarizeFrom_ok_inv w deadline rest o0 c0 s0 o c s h
            obtain ⟨iho, ihs, ihc⟩ := ih
            refine ⟨?_, ?_, ihc⟩
            · simpa [List.countP_cons, inWindowElem, hdate] using iho
            · simpa [List.countP_cons, inWindowElem, hdate] using ihs
          · rw [if_pos (by decide : ((true : Bool) = true))] at h
            rcases hopen : e.state == "open" with _ | _
            · have hno : ¬ ((e.state == "open") = true) := by simp [hopen]
              rw [if_neg hno] at h
              have ih := summarizeFrom_ok_inv w deadline rest o0 (c0 + 1) s0 o c s h
              obtain ⟨iho, ihs, ihc⟩ := ih
              refine ⟨?_, ?_, by omega⟩
              · simpa [List.countP_cons, inWindowElem, hdate] using iho
              · simpa [List.countP_cons, inWindowElem, hdate] using ihs
            · rw [if_pos hopen, pyLtDeadline, exceptBind_error] at h
              cases h
      · rw [filter_by_date_some] at h
        rcases hw : inWindow w d with _ | _
        · rw [hw] at h
          simp only [exceptBind_ok] at h
          rw [if_neg (by decide : ¬ ((false : Bool) = true))] at h
          have ih := summarizeFrom_ok_inv w deadline rest o0 c0 s0 o c s h
          obtain ⟨iho, ihs, ihc⟩ := ih
          refine ⟨?_, ?_, ihc⟩
          · simpa [List.countP_cons, inWindowElem, hdate, hw] using iho
          · simpa [List.countP_cons, inWindowElem, hdate, hw] using ihs
        · rw [hw] at h
          simp only [exceptBind_ok] at h
          rw [if_pos trivial] at h
          rcases hopen : e.state == "open" with _ | _
          · have hno : ¬ ((e.state == "open") = true) := by simp [hopen]
            rw [if_neg hno] at h
            have ih := summarizeFrom_ok_inv w deadline rest o0 (c0 + 1) s0 o c s h
            obtain ⟨iho, ihs, ihc⟩ := ih
            refine ⟨?_, ?_, by omega⟩
            · simpa [List.countP_cons, inWindowElem, isOpenElem, hdate, hw, hopen] using iho
            · simpa [List.countP_cons, inWindowElem, isOpenElem, hdate, hw, hopen] using ihs
          · rw [if_pos hopen, pyLtDeadline] at h
            simp only [exceptBind_ok] at h
            by_cases hdl : d < deadline
            · rw [if_pos (by simp [hdl] : (decide (d < deadline)) = true)] at h
              have ih := summarizeFrom_ok_inv w deadline rest (o0 + 1) c0 (s0 + 1) o c s h
              obtain ⟨iho, ihs, ihc⟩ := ih
              refine ⟨?_, ?_, ihc⟩
              · rw [iho]
                simp [List.countP_cons, inWindowElem, isOpenElem, hdate, hw, hopen]
                omega
              · rw [ihs]
                simp [List.countP_cons, inWindowElem, isOpenElem, beforeDeadline,
                  hdate, hw, hopen, hdl]
                omega
            · rw [if_neg (by simp [hdl] : ¬ ((decide (d < deadline)) = true))] at h
              have ih := summarizeFrom_ok_inv w deadline rest (o0 + 1) c0 s0 o c s h
              obtain ⟨iho, ihs, ihc⟩ := ih
              refine ⟨?_, ?_, ihc⟩
              · rw [iho]
                simp [List.countP_cons, inWindowElem, isOpenElem, hdate, hw, hopen]
                omega
              · rw [ihs]
                simp [List.countP_cons, inWindowElem, isOpenElem, beforeDeadline,
                  hdate, hw, hopen, hdl]

/-- When every element of the list parses to an actual date, the summarize
loop succeeds and returns exactly the three classification counts on top of
the accumulators. -/
theorem summarizeFrom_parse_ok (w : Window) (deadline : Nat) :
    ∀ (l : List Element) (o0 c0 s0 : Nat), (∀ e ∈ l, apiDateOk e = true) →
      summarizeFrom w deadline l o0 c0 s0 =
        .ok (o0 + l.countP (fun e => inWindowElem w e && isOpenElem e),
             c0 + l.countP (fun e => inWindowElem w e && !isOpenElem e),
             s0 + l.countP
               (fun e => inWindowElem w e && isOpenElem e && beforeDeadline deadline e))
  | [], o0, c0, s0, _ => by simp [summarizeFrom]
  | e :: rest, o0, c0, s0, hall => by
    have he : apiDateOk e = true := hall e (by simp)
    have hrest : ∀ x ∈ rest, apiDateOk x = true := fun x hx => hall x (by simp [hx])
    rcases hp : parse_time e.created_at "api" with er | created
    · exfalso
      simp [apiDateOk, hp] at he
    · rcases created with _ | d
      · exfalso
        simp [apiDateOk, hp] at he
      · have hdate := apiDate_eq e (some d) hp
        rw [summarizeFrom, hp]
        simp only [exceptBind_ok]
        rw [filter_by_date_some]
        rcases hw : inWindow w d with _ | _
        · simp only [exceptBind_ok]
          rw [if_neg (by decide : ¬ ((false : Bool) = true))]
          rw [summarizeFrom_parse_ok w deadline rest o0 c0 s0 hrest]
          simp [List.countP_cons, inWindowElem, hdate, hw]
        · simp only [exceptBind_ok]
          rw [if_pos trivial]
          rcases hopen : e.state == "open" with _ | _
          · rw [if_neg (by decide : ¬ ((false : Bool) = true))]
            rw [summarizeFrom_parse_ok w deadline rest o0 (c0 + 1) s0 hrest]
            simp [List.countP_cons, inWindowElem, isOpenElem, hdate, hw, hopen]
            omega
          · rw [if_pos (by decide : ((true : Bool) = true)), pyLtDeadline_some]
            simp only [exceptBind_ok]
            by_cases hdl : d < deadline
            · rw [if_pos (by simp [hdl] : (decide (d < deadline)) = true)]
              rw [summarizeFrom_parse_ok w deadline rest (o0 + 1) c0 (s0 + 1) hrest]
              simp [List.countP_cons, inWindowElem, isOpenElem, beforeDeadline,
                hdate, hw, hopen, hdl]
              omega
            · rw [if_neg (by simp [hdl] : ¬ ((decide (d < deadline)) = true))]
              rw [summarizeFrom_parse_ok w deadline rest (o0 + 1) c0 s0 hrest]
              simp [List.countP_cons, inWindowElem, isOpenElem, beforeDeadline,
                hdate, hw, hopen, hdl]
              omega

theorem countP_and_split (l : List Element) (p q : Element → Bool) :
    l.countP (fun e => p e && q e) + l.countP (fun e => p e && !q e) = l.countP p := by
  induction l with
  | nil => rfl
  | cons e rest ih =>
    simp only [List.countP_cons]
    rcases hp : p e with _ | _ <;> rcases hq : q e with _ | _ <;> simp <;> omega

/-- C1: when every record carries a parsable API timestamp, summarize
succeeds, counts exactly the in-window open records in `opened` and the
in-window non-open records in `closed`, and `opened + closed` equals the
number of in-window records; records outside the window are counted in
neither.  The in-window predicate is the one of the spec: from absent or
ts at least from, and to absent or ts at most to. -/
theorem claim_C1 (w : Window) (now staleDays : Nat) (elements : List Element)
    (h : ∀ e ∈ elements, apiDateOk e = true) :
    ∃ o c s, summarize w now staleDays elements = .ok (o, c, s)
      ∧ o = elements.countP (fun e => inWindowElem w e && isOpenElem e)
      ∧ c = elements.countP (fun e => inWindowElem w e && !isOpenElem e)
      ∧ o + c = elements.countP (fun e => inWindowElem w e) := by
  refine ⟨_, _, _, summarizeFrom_parse_ok w (now - staleDays * 86400) elements 0 0 0 h, by simp, by simp, ?_⟩
  simpa using countP_and_split elements (inWindowElem w) isOpenElem

/-- Witness for C1: a three-element list with one in-window open record, one
in-window closed record, and one record outside the window. -/
theorem claim_C1_witness :
    ∃ o c s,
      summarize (Window.mk (some (epochOf 2023 1 1 0 0 0)) (some (epochOf 2023 12 31 0 0 0)))
          (epochOf 2024 1 1 0 0 0) 30
          [Element.mk "2023-06-15T10:00:00Z" "open",
           Element.mk "2023-06-16T10:00:00Z" "closed",
           Element.mk "2020-01-01T00:00:00Z" "open"] = .ok (o, c, s)
      ∧ o = 1 ∧ c = 1 ∧ o + c = 2 := by
  obtain ⟨o, c, s, hok, ho, hc, hsum⟩ :=
    claim_C1 (Window.mk (some (epochOf 2023 1 1 0 0 0)) (some (epochOf 2023 12 31 0 0 0)))
      (epochOf 2024 1 1 0 0 0) 30
      [Element.mk "2023-06-15T10:00:00Z" "open",
       Element.mk "2023-06-16T10:00:00Z" "closed",
       Element.mk "2020-01-01T00:00:00Z" "open"]
      (by decide)
  refine ⟨o, c, s, hok, ?_, ?_, ?_⟩
  · rw [ho]; decide
  · rw [hc]; decide
  · rw [ho, hc]; decide

/-- C2: whenever summarize returns a summary, `stale` counts exactly the
in-window open records created strictly before the deadline
`now - staleDays * 86400` seconds (computed once, outside the loop), `opened`
counts exactly the in-window open records, and hence `stale ≤ opened`; a
record contributes to `stale` only if it contributes to `opened`, has state
`"open"` and a creation date before the deadline, and non-open records never
contribute to either. -/
theorem claim_C2 (w : Window) (now staleDays : Nat) (elements : List Element)
    (o c s : Nat) (h : summarize w now staleDays elements = .ok (o, c, s)) :
    s ≤ o
    ∧ o = elements.countP (fun e => inWindowElem w e && isOpenElem e)
    ∧ s = elements.countP
        (fun e => inWindowElem w e && isOpenElem e
          && beforeDeadline (now - staleDays * 86400) e) := by
  obtain ⟨ho, hs, _⟩ := summarizeFrom_ok_inv w (now - staleDays * 86400) elements 0 0 0 o c s h
  refine ⟨?_, by simpa using ho, by simpa using hs⟩
  rw [ho, hs]
  have := List.countP_mono_left (l := elements)
    (p := fun e => inWindowElem w e && isOpenElem e && beforeDeadline (now - staleDays * 86400) e)
    (q := fun e => inWindowElem w e && isOpenElem e)
    (by intro x hx hpx; simp only [Bool.and_eq_true] at hpx ⊢; exact hpx.1)
  omega

/-- Witness for C2: the theorem applied to a concrete successful run with one
stale open record, one fresh open record and one closed record. -/
theorem claim_C2_witness :
    summarize (Window.mk none none) (epochOf 2023 2 1 0 0 0) 7
      [Element.mk "2023-01-15T10:00:00Z" "open",
       Element.mk "2023-01-31T10:00:00Z" "open",
       Element.mk "2023-01-15T10:00:00Z" "closed"] = .ok (2, 1, 1)
    ∧ (1 : Nat) ≤ 2 := by
  have hrun : summarize (Window.mk none none) (epochOf 2023 2 1 0 0 0) 7
      [Element.mk "2023-01-15T10:00:00Z" "open",
       Element.mk "2023-01-31T10:00:00Z" "open",
       Element.mk "2023-01-15T10:00:00Z" "closed"] = .ok (2, 1, 1) := by rfl
  exact ⟨hrun,
    (claim_C2 (Window.mk none none) (epochOf 2023 2 1 0 0 0) 7 _ 2 1 1 hrun).1⟩

/-- A parse failure anywhere in a list whose `created_at` fields are all
non-empty aborts the summarize loop with the date-format input error,
whatever the accumulators are. -/
theorem summarizeFrom_fail (w : Window) (deadline : Nat) :
    ∀ (l : List Element), (∀ e ∈ l, e.created_at.isEmpty = false) →
      (∃ e ∈ l, apiParseFails e = true) →
      ∀ o c s, summarizeFrom w deadline l o c s
        = .error (.analyzerError "Incorrect date format")
  | [], _, hex, _, _, _ => by simp at hex
  | e :: rest, hne, hex, o, c, s => by
    rcases hp : parse_time e.created_at "api" with er | created
    · have her : er = .analyzerError "Incorrect date format" := parse_time_error_msg _ _ _ hp
      rw [summarizeFrom, hp, exceptBind_error, her]
    · have hfe : apiParseFails e = false := by simp [apiParseFails, hp]
      have hex2 : ∃ x ∈ rest, apiParseFails x = true := by
        obtain ⟨x, hx, hfail⟩ := hex
        rcases List.mem_cons.mp hx with rfl | hxr
        · rw [hfe] at hfail
          cases hfail
        · exact ⟨x, hxr, hfail⟩
      have hne2 : ∀ x ∈ rest, x.created_at.isEmpty = false :=
        fun x hx => hne x (by simp [hx])
      rcases created with _ | d
      · exfalso
        have hplain : e.created_at = "" := parse_time_ok_none _ _ hp
        have h1 := hne e (by simp)
        rw [hplain] at h1
        exact absurd h1 (by decide)
      · rw [summarizeFrom, hp]
        simp only [exceptBind_ok]
        rw [filter_by_date_some]
        rcases hw : inWindow w d with _ | _
        · simp only [exceptBind_ok]
          rw [if_neg (by decide : ¬ ((false : Bool) = true))]
          exact summarizeFrom_fail w deadline rest hne2 hex2 o c s
        · simp only [exceptBind_ok]
          rw [if_pos trivial]
          rcases hopen : e.state == "open" with _ | _
          · rw [if_neg (by decide : ¬ ((false : Bool) = true))]
            exact summarizeFrom_fail w deadline rest hne2 hex2 o (c + 1) s
          · rw [if_pos (by decide : ((true : Bool) = true)), pyLtDeadline_some]
            simp only [exceptBind_ok]
            by_cases hdl : d < deadline
            · rw [if_pos (by simp [hdl] : (decide (d < deadline)) = true)]
              exact summarizeFrom_fail w deadline rest hne2 hex2 (o + 1) c (s + 1)
            · rw [if_neg (by simp [hdl] : ¬ ((decide (d < deadline)) = true))]
              exact summarizeFrom_fail w deadline rest hne2 hex2 (o + 1) c s

/-- C9 (amended): when every record has a non-empty `created_at` and some
record fails Python strptime parsing under the API format, summarize raises
`AnalyzerError("Incorrect date format")` and returns no counts. -/
theorem claim_C9 (w : Window) (now staleDays : Nat) (elements : List Element)
    (h1 : ∀ e ∈ elements, e.created_at.isEmpty = false)
    (h2 : ∃ e ∈ elements, apiParseFails e = true) :
    summarize w now staleDays elements = .error (.analyzerError "Incorrect date format") :=
  summarizeFrom_fail w (now - staleDays * 86400) elements h1 h2 0 0 0

/-- Counterexample to C9 as stated: `"2023-1-5T1:2:3Z"` is non-empty and does
not match the literal pattern `YYYY-MM-DDTHH:MM:SSZ`, yet summarize accepts
the record and returns counts instead of raising the input error. -/
theorem claim_C9_cex :
    isStrictApiFormat "2023-1-5T1:2:3Z" = false
    ∧ ("2023-1-5T1:2:3Z" : String).isEmpty = false
    ∧ summarize (Window.mk none none) 0 0 [Element.mk "2023-1-5T1:2:3Z" "open"]
        = .ok (1, 0, 0) :=
  ⟨rfl, rfl, rfl⟩

/-- Witness for C9: a well-formed record followed by an unparsable one makes
summarize fail with the date-format input error. -/
theorem claim_C9_witness :
    summarize (Window.mk none none) 0 0
      [Element.mk "2023-06-15T10:00:00Z" "open", Element.mk "not-a-date" "open"]
      = .error (.analyzerError "Incorrect date format") :=
  claim_C9 (Window.mk none none) 0 0
    [Element.mk "2023-06-15T10:00:00Z" "open", Element.mk "not-a-date" "open"]
    (by decide)
    ⟨Element.mk "not-a-date" "open", by decide, by decide⟩

/-! Lemmas about the contributor tally. -/

/-- Current counter value of a login in the insertion-ordered counter list. -/
def countOf (acc : List (String × Nat)) (k : String) : Nat :=
  match acc.find? (fun p => p.1 == k) with
  | some p => p.2
  | none => 0

theorem countOf_nil (k : String) : countOf [] k = 0 := rfl

theorem countOf_bump_same : ∀ (acc : List (String × Nat)) (l : String),
    countOf (bump acc l) l = countOf acc l + 1
  | [], l => by simp [bump, countOf, List.find?]
  | (k, v) :: rest, l => by
    by_cases hk : k = l
    · subst hk
      simp [bump, countOf, List.find?]
    · have hb : (k == l) = false := by simp [hk]
      simp only [bump, if_neg hk, countOf, List.find?, hb]
      exact countOf_bump_same rest l

theorem countOf_bump_other : ∀ (acc : List (String × Nat)) (l k : String), k ≠ l →
    countOf (bump acc l) k = countOf acc k
  | [], l, k, hne => by
    have hlk : (l == k) = false := beq_eq_false_iff_ne.mpr (fun h => hne h.symm)
    simp [bump, countOf, List.find?, hlk]
  | (k0, v) :: rest, l, k, hne => by
    by_cases hk : k0 = l
    · subst hk
      have h0 : (k0 == k) = false := beq_eq_false_iff_ne.mpr (fun h => hne (h.symm.trans rfl))
      simp only [bump, if_pos rfl, countOf, List.find?, h0]
    · simp only [bump, if_neg hk, countOf, List.find?]
      rcases h0 : k0 == k with _ | _
      · simpa [countOf, h0] using countOf_bump_other rest l k hne
      · rfl

theorem bump_keys : ∀ (acc : List (String × Nat)) (l : String),
    (bump acc l).map Prod.fst =
      if l ∈ acc.map Prod.fst then acc.map Prod.fst else acc.map Prod.fst ++ [l]
  | [], l => by simp [bump]
  | (k, v) :: rest, l => by
    by_cases hk : k = l
    · subst hk
      simp [bump]
    · have hlk : l ≠ k := fun h => hk h.symm
      have hrec := bump_keys rest l
      by_cases hm : l ∈ rest.map Prod.fst
      · simp only [bump, if_neg hk, List.map_cons, hrec, if_pos hm]
        simp [List.mem_cons, hm, hlk]
      · simp only [bump, if_neg hk, List.map_cons, hrec, if_neg hm]
        simp [List.mem_cons, hm, hlk]

theorem bump_pos : ∀ (acc : List (String × Nat)) (l : String),
    (∀ p ∈ acc, 1 ≤ p.2) → ∀ p ∈ bump acc l, 1 ≤ p.2
  | [], l, _, p, hp => by
    simp only [bump, List.mem_singleton] at hp
    subst hp
    simp
  | (k, v) :: rest, l, hall, p, hp => by
    by_cases hk : k = l
    · rw [bump, if_pos hk, List.mem_cons] at hp
      rcases hp with rfl | hp
      · simp
      · exact hall p (by simp [hp])
    · rw [bump, if_neg hk, List.mem_cons] at hp
      rcases hp with rfl | hp
      · exact hall (k, v) (by simp)
      · exact bump_pos rest l (fun q hq => hall q (by simp [hq])) p hp

theorem bump_keys_nodup (acc : List (String × Nat)) (l : String)
    (h : (acc.map Prod.fst).Nodup) : ((bump acc l).map Prod.fst).Nodup := by
  rw [bump_keys]
  by_cases hm : l ∈ acc.map Prod.fst
  · rw [if_pos hm]
    exact h
  · rw [if_neg hm]
    simp [List.nodup_append, h, hm]

theorem bump_sum (acc : List (String × Nat)) (l : String) :
    ((bump acc l).map Prod.snd).sum = ((acc.map Prod.snd).sum) + 1 := by
  induction acc with
  | nil => simp [bump]
  | cons p rest ih =>
    rcases p with ⟨k, v⟩
    by_cases hk : k = l
    · subst hk
      simp [bump]
      omega
    · simp only [bump, if_neg hk, List.map_cons, List.sum_cons, ih]
      omega

theorem mem_of_countOf (acc : List (String × Nat)) (k : String) (n : Nat)
    (hc : countOf acc k = n) (hn : 1 ≤ n) : (k, n) ∈ acc := by
  induction acc with
  | nil => simp [countOf, List.find?] at hc; omega
  | cons p rest ih =>
    rcases p with ⟨k0, v⟩
    rcases h0 : k0 == k with _ | _
    · simp only [countOf, List.find?, h0] at hc
      exact List.mem_cons_of_mem _ (ih hc)
    · simp only [countOf, List.find?, h0] at hc
      have : k0 = k := by simpa using h0
      subst this
      subst hc
      simp

theorem countOf_of_mem (acc : List (String × Nat)) (k : String) (n : Nat)
    (hnd : (acc.map Prod.fst).Nodup) (hm : (k, n) ∈ acc) : countOf acc k = n := by
  induction acc with
  | nil => simp at hm
  | cons p rest ih =>
    rcases p with ⟨k0, v⟩
    rcases List.mem_cons.mp hm with heq | hm2
    · cases heq
      simp [countOf, List.find?]
    · rw [List.map_cons, List.nodup_cons] at hnd
      have hk0 : k0 ≠ k := by
        intro h
        subst h
        have hmm : k0 ∈ rest.map Prod.fst := List.mem_map.mpr ⟨(k0, n), hm2, rfl⟩
        exact hnd.1 hmm
      have h0 : (k0 == k) = false := beq_eq_false_iff_ne.mpr hk0
      simp only [countOf, List.find?, h0]
      exact ih hnd.2 hm2

/-- Counter value after the whole counting loop: the number of commits whose
author login equals `k`, on top of whatever the accumulator held. -/
theorem countOf_foldl : ∀ (commits : List Commit) (acc : List (String × Nat)) (k : String),
    countOf (commits.foldl tallyStep acc) k
      = countOf acc k + commits.countP (fun c => c.author == some k)
  | [], acc, k => by simp
  | c :: rest, acc, k => by
    rw [List.foldl_cons, countOf_foldl rest (tallyStep acc c) k, List.countP_cons]
    rcases ha : c.author with _ | l
    · simp [tallyStep, ha]
    · by_cases hl : l = k
      · subst hl
        simp [tallyStep, countOf_bump_same, ha]
        omega
      · have : ((some l == some k) : Bool) = false := by simp [hl]
        simp [tallyStep, ha, countOf_bump_other acc l k (fun h => hl h.symm), this]

theorem tally_keys_nodup_pos : ∀ (commits : List Commit) (acc : List (String × Nat)),
    (acc.map Prod.fst).Nodup → (∀ p ∈ acc, 1 ≤ p.2) →
    ((commits.foldl tallyStep acc).map Prod.fst).Nodup
      ∧ ∀ p ∈ commits.foldl tallyStep acc, 1 ≤ p.2
  | [], acc, hnd, hpos => ⟨hnd, hpos⟩
  | c :: rest, acc, hnd, hpos => by
    rw [List.foldl_cons]
    rcases ha : c.author with _ | l
    · exact tally_keys_nodup_pos rest (tallyStep acc c) (by simpa [tallyStep, ha] using hnd)
        (by simpa [tallyStep, ha] using hpos)
    · exact tally_keys_nodup_pos rest (tallyStep acc c)
        (by simpa [tallyStep, ha] using bump_keys_nodup acc l hnd)
        (by simpa [tallyStep, ha] using bump_pos acc l hpos)

theorem tally_sum : ∀ (commits : List Commit) (acc : List (String × Nat)),
    ((commits.foldl tallyStep acc).map Prod.snd).sum
      = ((acc.map Prod.snd).sum) + commits.countP (fun c => c.author.isSome)
  | [], acc => by simp
  | c :: rest, acc => by
    rw [List.foldl_cons, tally_sum rest (tallyStep acc c), List.countP_cons]
    rcases ha : c.author with _ | l
    · simp [tallyStep, ha]
    · simp [tallyStep, ha, bump_sum]
      omega

/-- Membership in the tally characterizes the per-login commit counts. -/
theorem tally_mem_iff (commits : List Commit) (k : String) (n : Nat) :
    (k, n) ∈ tally commits
      ↔ commits.countP (fun c => c.author == some k) = n ∧ 1 ≤ n := by
  have htl : commits.foldl tallyStep [] = tally commits := rfl
  obtain ⟨hnd, hpos⟩ := tally_keys_nodup_pos commits [] (by simp) (by simp)
  rw [htl] at hnd hpos
  have hcount : countOf (tally commits) k = commits.countP (fun c => c.author == some k) := by
    have hfold := countOf_foldl commits [] k
    rw [htl] at hfold
    simpa [countOf_nil] using hfold
  constructor
  · intro hm
    have := countOf_of_mem _ _ _ hnd hm
    exact ⟨by rw [← hcount, this], hpos _ hm⟩
  · rintro ⟨hc, hn⟩
    exact mem_of_countOf _ _ _ (by rw [hcount, hc]) hn

theorem contribLE_trans : ∀ a b c : String × Nat,
    contribLE a b → contribLE b c → contribLE a c := by
  intro a b c hab hbc
  simp only [contribLE, decide_eq_true_eq] at hab hbc ⊢
  omega

theorem contribLE_total : ∀ a b : String × Nat, contribLE a b || contribLE b a := by
  intro a b
  simp only [contribLE, Bool.or_eq_true, decide_eq_true_eq]
  omega

theorem get_contributors_zero (commits : List Commit) :
    get_contributors commits 0 = (tally commits).mergeSort contribLE := by
  simp [get_contributors]

/-- C5: on the two spec examples the ranking is as stated (per-login counts in
descending order, null authors skipped); in general a nonzero limit truncates
the full ranking, the full ranking is sorted descending by count and stable
(pairs already in descending order keep their relative order), and a pair
`(login, n)` appears in the full ranking exactly when `n ≥ 1` is the number of
commits whose author login is `login` — so each non-null-author commit is
counted under its login and null-author commits under no key. -/
theorem claim_C5 :
    get_contributors
        [Commit.mk (some "alice"), Commit.mk (some "bob"), Commit.mk (some "alice"),
         Commit.mk (some "carol"), Commit.mk (some "bob"), Commit.mk (some "alice")] 0
      = [("alice", 3), ("bob", 2), ("carol", 1)]
    ∧ get_contributors [Commit.mk none, Commit.mk (some "alice")] 0 = [("alice", 1)]
    ∧ (∀ commits cnt, cnt ≠ 0 →
        get_contributors commits cnt = (get_contributors commits 0).take cnt)
    ∧ (∀ commits, (get_contributors commits 0).Pairwise (fun a b => b.2 ≤ a.2))
    ∧ (∀ commits k n, (k, n) ∈ get_contributors commits 0
        ↔ commits.countP (fun c => c.author == some k) = n ∧ 1 ≤ n)
    ∧ (∀ commits x y, [x, y].Sublist (tally commits) → contribLE x y = true →
        [x, y].Sublist (get_contributors commits 0)) := by
  refine ⟨?_, ?_, ?_, ?_, ?_, ?_⟩
  · rw [get_contributors_zero]
    rw [show tally
        [Commit.mk (some "alice"), Commit.mk (some "bob"), Commit.mk (some "alice"),
         Commit.mk (some "carol"), Commit.mk (some "bob"), Commit.mk (some "alice")]
      = [("alice", 3), ("bob", 2), ("carol", 1)] from rfl]
    exact List.mergeSort_of_sorted (by decide)
  · rw [get_contributors_zero]
    rw [show tally [Commit.mk none, Commit.mk (some "alice")] = [("alice", 1)] from rfl]
    exact List.mergeSort_singleton ("alice", 1)
  · intro commits cnt hcnt
    simp [get_contributors, hcnt]
  · intro commits
    rw [get_contributors_zero]
    exact (List.sorted_mergeSort contribLE_trans contribLE_total (tally commits)).imp
      (fun h => by simpa [contribLE] using h)
  · intro commits k n
    rw [get_contributors_zero, List.mem_mergeSort]
    exact tally_mem_iff commits k n
  · intro commits x y hsub hle
    rw [get_contributors_zero]
    exact List.pair_sublist_mergeSort contribLE_trans contribLE_total hle hsub

/-- Witness for C5: truncation applied at a concrete commit list and limit,
together with the concrete ranking facts. -/
theorem claim_C5_witness :
    get_contributors
        [Commit.mk (some "alice"), Commit.mk (some "bob"), Commit.mk (some "alice")] 2
      = (get_contributors
          [Commit.mk (some "alice"), Commit.mk (some "bob"), Commit.mk (some "alice")] 0).take 2 :=
  claim_C5.2.2.1
    [Commit.mk (some "alice"), Commit.mk (some "bob"), Commit.mk (some "alice")] 2
    (by decide)

/-- C10: in the full ranking every login appears at most once, every count is
at least 1, and the counts add up to the number of commits with a non-null
author. -/
theorem claim_C10 (commits : List Commit) :
    ((get_contributors commits 0).map Prod.fst).Nodup
    ∧ (∀ p ∈ get_contributors commits 0, 1 ≤ p.2)
    ∧ ((get_contributors commits 0).map Prod.snd).sum
        = commits.countP (fun c => c.author.isSome) := by
  have hperm : List.Perm ((tally commits).mergeSort contribLE) (tally commits) :=
    List.mergeSort_perm (tally commits) contribLE
  have htl : commits.foldl tallyStep [] = tally commits := rfl
  obtain ⟨hnd, hpos⟩ := tally_keys_nodup_pos commits [] (by simp) (by simp)
  rw [htl] at hnd hpos
  refine ⟨?_, ?_, ?_⟩
  · rw [get_contributors_zero]
    exact ((hperm.map Prod.fst).nodup_iff).mpr hnd
  · intro p hp
    rw [get_contributors_zero] at hp
    exact hpos p (hperm.mem_iff.mp hp)
  · rw [get_contributors_zero]
    have hsum := tally_sum commits []
    rw [htl] at hsum
    rw [(hperm.map Prod.snd).sum_eq]
    simpa using hsum

/-- Witness for C10: the count-sum component at a concrete commit list. -/
theorem claim_C10_witness :
    ((get_contributors [Commit.mk (some "alice"), Commit.mk none] 0).map Prod.snd).sum
      = List.countP (fun c => c.author.isSome) [Commit.mk (some "alice"), Commit.mk none] :=
  (claim_C10 [Commit.mk (some "alice"), Commit.mk none]).2.2

/-! Lemmas about the pagination loop. -/

theorem query_200 {R : Type} (resp : Response R) (h : resp.status = 200) :
    query resp = .ok resp.json := by
  simp [query, h]

theorem query_not_200 {R : Type} (resp : Response R) (h : resp.status ≠ 200) :
    query resp = .error (.repositoryError ("API request error: " ++ resp.text)) := by
  simp [query, h]

/-- With no result cap, a run over pages that are full up to a final short
page accumulates every returned page in order and stops at the short page. -/
theorem getAllPagesFrom_full_run {R : Type} (pages : Nat → Response R) (ps : Nat) :
    ∀ (n start fuel : Nat) (acc : List R),
      1 ≤ n → n ≤ fuel →
      (∀ p, start ≤ p → p < start + n - 1 →
        (pages p).status = 200 ∧ (pages p).json.length = ps) →
      (pages (start + n - 1)).status = 200 →
      (pages (start + n - 1)).json.length < ps →
      getAllPagesFrom pages ps 0 fuel start acc
        = .ok (some (acc ++ ((List.range' start n).map (fun p => (pages p).json)).flatten,
            start + n - 1))
  | 0, _, _, _, hn, _, _, _, _ => by omega
  | 1, start, fuel, acc, _, hfuel, _, hstat, hshort => by
    rcases fuel with _ | f
    · omega
    · simp only [Nat.add_sub_cancel] at hstat hshort
      rw [getAllPagesFrom, query_200 _ hstat, exceptBind_ok,
        if_pos (Or.inl hshort)]
      simp [List.range']
  | k + 2, start, fuel, acc, _, hfuel, hfull, hstat, hshort => by
    rcases fuel with _ | f
    · omega
    · obtain ⟨hst, hlen⟩ := hfull start (Nat.le_refl start) (by omega)
      rw [getAllPagesFrom, query_200 _ hst, exceptBind_ok,
        if_neg (by
          rw [hlen]
          simp)]
      have ih := getAllPagesFrom_full_run pages ps (k + 1) (start + 1) f (acc ++ (pages start).json)
        (by omega) (by omega)
        (fun p hp1 hp2 => hfull p (by omega) (by omega))
        (by
          have : start + 1 + (k + 1) - 1 = start + (k + 2) - 1 := by omega
          rw [this]
          exact hstat)
        (by
          have : start + 1 + (k + 1) - 1 = start + (k + 2) - 1 := by omega
          rw [this]
          exact hshort)
      rw [ih]
      have hrange : List.range' start (k + 2) = start :: List.range' (start + 1) (k + 1) :=
        List.range'_succ start (k + 1) 1
      rw [hrange]
      have hidx : start + 1 + (k + 1) - 1 = start + (k + 2) - 1 := by omega
      rw [hidx]
      simp [List.append_assoc]

/-- Total length of the accumulated records of a full run: a full page for
every page before the last, plus the short last page. -/
theorem full_run_length {R : Type} (pages : Nat → Response R) (ps : Nat) :
    ∀ (n start : Nat),
      1 ≤ n →
      (∀ p, start ≤ p → p < start + n - 1 → (pages p).json.length = ps) →
      (((List.range' start n).map (fun p => (pages p).json)).flatten).length
        = ps * (n - 1) + (pages (start + n - 1)).json.length
  | 0, start, hn, _ => by omega
  | 1, start, _, _ => by simp [List.range']
  | k + 2, start, _, hfull => by
    have hrange : List.range' start (k + 2) = start :: List.range' (start + 1) (k + 1) :=
      List.range'_succ start (k + 1) 1
    rw [hrange, List.map_cons, List.flatten_cons, List.length_append]
    rw [full_run_length pages ps (k + 1) (start + 1) (by omega)
      (fun p hp1 hp2 => hfull p (by omega) (by omega))]
    rw [hfull start (Nat.le_refl start) (by omega)]
    have e1 : k + 1 - 1 = k := by omega
    have e2 : k + 2 - 1 = k + 1 := by omega
    have e3 : start + 1 + (k + 1) - 1 = start + (k + 2) - 1 := by omega
    rw [e1, e2, e3]
    ring

/-- C3: with no cap, over an endpoint whose pages `1..n-1` are full (exactly
`ps = 100` records, status 200) and whose page `n` is short, the fetch starts
at page 1, appends every returned page in order, stops exactly at page `n`
(so `n` page requests), and returns `100 * (n-1) + len(page n)` records.
Instantiated at pages of sizes `[100, 100, 37]` this gives 237 records after
exactly 3 requests (see the witness). -/
theorem claim_C3 {R : Type} (pages : Nat → Response R) (n fuel : Nat)
    (hn : 1 ≤ n) (hfuel : n ≤ fuel)
    (hfull : ∀ p, 1 ≤ p → p < n → (pages p).status = 200 ∧ (pages p).json.length = 100)
    (hlast : (pages n).status = 200) (hshort : (pages n).json.length < 100) :
    get_all_pages pages 0 fuel
      = .ok (some (((List.range' 1 n).map (fun p => (pages p).json)).flatten, n))
    ∧ (((List.range' 1 n).map (fun p => (pages p).json)).flatten).length
        = 100 * (n - 1) + (pages n).json.length := by
  have hidx : 1 + n - 1 = n := by omega
  have hrun := getAllPagesFrom_full_run pages 100 n 1 fuel [] hn hfuel
    (fun p hp1 hp2 => hfull p hp1 (by omega))
    (by rw [hidx]; exact hlast) (by rw [hidx]; exact hshort)
  constructor
  · unfold get_all_pages
    have hps : effPageSize 0 = 100 := rfl
    rw [hps, hrun, hidx]
    simp
  · have := full_run_length pages 100 n 1 hn (fun p hp1 hp2 => (hfull p hp1 (by omega)).2)
    rw [hidx] at this
    exact this

/-- Witness for C3: pages of sizes 100, 100, 37 yield exactly 237 records
after exactly 3 page requests. -/
theorem claim_C3_witness :
    ∃ recs : List Nat,
      get_all_pages (fun p => Response.mk 200 ""
          (if p ≤ 2 then List.replicate 100 0 else List.replicate 37 0)) 0 3
        = .ok (some (recs, 3))
      ∧ recs.length = 237 := by
  obtain ⟨h1, h2⟩ := claim_C3
    (fun p => Response.mk 200 "" (if p ≤ 2 then List.replicate 100 0 else List.replicate 37 0))
    3 3 (by omega) (by omega)
    (by
      intro p hp1 hp2
      refine ⟨rfl, ?_⟩
      show (if p ≤ 2 then List.replicate 100 (0 : Nat) else List.replicate 37 0).length = 100
      rw [if_pos (by omega)]
      simp)
    rfl
    (by decide)
  refine ⟨_, h1, ?_⟩
  rw [h2]
  decide

/-- With a nonzero cap and an endpoint all of whose pages are full, the loop
runs until the accumulated length first reaches the cap and stops there. -/
theorem getAllPagesFrom_cap_run {R : Type} (pages : Nat → Response R) (m ps : Nat)
    (hm : m ≠ 0)
    (hfull : ∀ p, (pages p).status = 200 ∧ (pages p).json.length = ps) :
    ∀ (n start fuel : Nat) (acc : List R),
      1 ≤ n → n ≤ fuel →
      m ≤ acc.length + ps * n → acc.length + ps * (n - 1) < m →
      ∃ data, getAllPagesFrom pages ps m fuel start acc = .ok (some (data, start + n - 1))
        ∧ data.length = acc.length + ps * n
  | 0, _, _, _, hn, _, _, _ => by omega
  | 1, start, fuel, acc, _, hfuel, hreach, hbefore => by
    rcases fuel with _ | f
    · omega
    · obtain ⟨hst, hlen⟩ := hfull start
      rw [getAllPagesFrom, query_200 _ hst, exceptBind_ok,
        if_pos (Or.inr ⟨hm, by rw [List.length_append, hlen]; omega⟩)]
      refine ⟨acc ++ (pages start).json, by rw [Nat.add_sub_cancel], ?_⟩
      rw [List.length_append, hlen]
      omega
  | k + 2, start, fuel, acc, _, hfuel, hreach, hbefore => by
    rcases fuel with _ | f
    · omega
    · obtain ⟨hst, hlen⟩ := hfull start
      have e21 : k + 2 - 1 = k + 1 := by omega
      rw [e21] at hbefore
      have hmul : ps * (k + 2) = ps * (k + 1) + ps := by ring
      rw [hmul] at hreach
      have hmul2 : ps * (k + 1) = ps * k + ps := by ring
      have hone : ps * 1 ≤ ps * (k + 1) := Nat.mul_le_mul_left ps (by omega)
      rw [Nat.mul_one] at hone
      have hcont : ¬ ((pages start).json.length < ps
          ∨ (m ≠ 0 ∧ m ≤ (acc ++ (pages start).json).length)) := by
        rw [List.length_append, hlen]
        rintro (h1 | ⟨_, h2⟩)
        · omega
        · omega
      rw [getAllPagesFrom, query_200 _ hst, exceptBind_ok, if_neg hcont]
      obtain ⟨data, hdata, hdlen⟩ := getAllPagesFrom_cap_run pages m ps hm hfull
        (k + 1) (start + 1) f (acc ++ (pages start).json)
        (by omega) (by omega)
        (by rw [List.length_append, hlen]; omega)
        (by
          rw [List.length_append, hlen, show k + 1 - 1 = k from by omega]
          omega)
      refine ⟨data, ?_, ?_⟩
      · rw [hdata]
        have : start + 1 + (k + 1) - 1 = start + (k + 2) - 1 := by omega
        rw [this]
      · rw [hdlen, List.length_append, hlen]
        omega

/-- C4: with a nonzero cap `m` the page size in use is `min 100 m`, the loop
stops at the first page where the accumulated record count reaches `m`
(page `n`, characterized by `ps * (n-1) < m ≤ ps * n`), and the accumulator is
truncated to exactly `m` records before returning.  Instantiated at `m = 150`
and full pages of 100 this yields exactly 150 records (see the witness). -/
theorem claim_C4 {R : Type} (pages : Nat → Response R) (m n fuel : Nat) (hm : m ≠ 0)
    (hfull : ∀ p, (pages p).status = 200 ∧ (pages p).json.length = effPageSize m)
    (hn : 1 ≤ n) (hfuel : n ≤ fuel)
    (hreach : m ≤ effPageSize m * n) (hbefore : effPageSize m * (n - 1) < m) :
    effPageSize m = min PAGE_SIZE m
    ∧ ∃ data, get_all_pages pages m fuel = .ok (some (data, n)) ∧ data.length = m := by
  constructor
  · unfold effPageSize PAGE_SIZE
    rw [Nat.min_def]
    split
    · rw [if_neg (by omega)]
    · rw [if_pos (by omega)]
  · obtain ⟨data0, hrun, hlen0⟩ := getAllPagesFrom_cap_run pages m (effPageSize m) hm hfull
      n 1 fuel [] hn hfuel (by simpa using hreach) (by simpa using hbefore)
    have hidx : 1 + n - 1 = n := by omega
    rw [hidx] at hrun
    refine ⟨data0.take m, ?_, ?_⟩
    · unfold get_all_pages
      rw [hrun]
      simp [hm]
    · rw [List.length_take]
      simp only [List.length_nil, Nat.zero_add] at hlen0
      omega

/-- Witness for C4: cap 150 over full pages of 100 returns exactly 150
records, stopping after the second page request. -/
theorem claim_C4_witness :
    effPageSize 150 = min PAGE_SIZE 150
    ∧ ∃ data : List Nat,
        get_all_pages (fun _ => Response.mk 200 "" (List.replicate 100 0)) 150 2
          = .ok (some (data, 2))
        ∧ data.length = 150 :=
  claim_C4 (fun _ => Response.mk 200 "" (List.replicate 100 0)) 150 2 2
    (by omega)
    (fun p => ⟨rfl, by simp [effPageSize, PAGE_SIZE]⟩)
    (by omega) (by omega)
    (by simp [effPageSize, PAGE_SIZE]) (by simp [effPageSize, PAGE_SIZE])

/-- A non-200 response at the first failing page aborts the whole fetch with
the query error carrying the response body, whatever came before. -/
theorem getAllPagesFrom_error_run {R : Type} (pages : Nat → Response R) (m ps : Nat) :
    ∀ (k start fuel : Nat) (acc : List R),
      1 ≤ k → k ≤ fuel →
      (∀ p, start ≤ p → p < start + k - 1 →
        (pages p).status = 200 ∧ (pages p).json.length = ps
        ∧ (m = 0 ∨ acc.length + ps * (p + 1 - start) < m)) →
      (pages (start + k - 1)).status ≠ 200 →
      getAllPagesFrom pages ps m fuel start acc
        = .error (.repositoryError ("API request error: " ++ (pages (start + k - 1)).text))
  | 0, _, _, _, hk, _, _, _ => by omega
  | 1, start, fuel, acc, _, hfuel, _, hbad => by
    rcases fuel with _ | f
    · omega
    · simp only [Nat.add_sub_cancel] at hbad
      rw [getAllPagesFrom, query_not_200 _ hbad, exceptBind_error, Nat.add_sub_cancel]
  | k + 2, start, fuel, acc, _, hfuel, hprev, hbad => by
    rcases fuel with _ | f
    · omega
    · obtain ⟨hst, hlen, hcap⟩ := hprev start (Nat.le_refl start) (by omega)
      have hcont : ¬ ((pages start).json.length < ps
          ∨ (m ≠ 0 ∧ m ≤ (acc ++ (pages start).json).length)) := by
        rw [List.length_append, hlen]
        rintro (h1 | ⟨hm0, h2⟩)
        · omega
        · rcases hcap with hz | hlt
          · exact hm0 hz
          · have : start + 1 - start = 1 := by omega
            rw [this] at hlt
            omega
      rw [getAllPagesFrom, query_200 _ hst, exceptBind_ok, if_neg hcont]
      have ih := getAllPagesFrom_error_run pages m ps (k + 1) (start + 1) f
        (acc ++ (pages start).json)
        (by omega) (by omega)
        (fun p hp1 hp2 => by
          obtain ⟨h1, h2, h3⟩ := hprev p (by omega) (by omega)
          refine ⟨h1, h2, ?_⟩
          rcases h3 with hz | hlt
          · exact Or.inl hz
          · right
            rw [List.length_append, hlen]
            have : p + 1 - start = (p + 1 - (start + 1)) + 1 := by omega
            rw [this] at hlt
            ring_nf at hlt ⊢
            omega)
        (by
          have : start + 1 + (k + 1) - 1 = start + (k + 2) - 1 := by omega
          rw [this]
          exact hbad)
      rw [ih]
      have : start + 1 + (k + 1) - 1 = start + (k + 2) - 1 := by omega
      rw [this]

/-- C8: if the pages before `k` succeed with full pages (without satisfying a
nonzero cap) and the request for page `k` gets a status other than 200, the
whole fetch returns the query error carrying the response body text and no
record list at all, however many pages already succeeded. -/
theorem claim_C8 {R : Type} (pages : Nat → Response R) (m fuel k : Nat)
    (hk : 1 ≤ k) (hfuel : k ≤ fuel)
    (hprev : ∀ p, 1 ≤ p → p < k →
      (pages p).status = 200 ∧ (pages p).json.length = effPageSize m
      ∧ (m = 0 ∨ effPageSize m * p < m))
    (hbad : (pages k).status ≠ 200) :
    get_all_pages pages m fuel
      = .error (.repositoryError ("API request error: " ++ (pages k).text)) := by
  have hidx : 1 + k - 1 = k := by omega
  have hrun := getAllPagesFrom_error_run pages m (effPageSize m) k 1 fuel [] hk hfuel
    (fun p hp1 hp2 => by
      obtain ⟨h1, h2, h3⟩ := hprev p hp1 (by omega)
      refine ⟨h1, h2, ?_⟩
      rcases h3 with hz | hlt
      · exact Or.inl hz
      · right
        simp only [List.length_nil, Nat.zero_add]
        have : p + 1 - 1 = p := by omega
        rw [this]
        exact hlt)
    (by rw [hidx]; exact hbad)
  rw [hidx] at hrun
  unfold get_all_pages
  rw [hrun]

/-- Witness for C8: a full first page followed by a 500 response on page 2
aborts the fetch with the query error carrying the body text. -/
theorem claim_C8_witness :
    get_all_pages (fun p => if p = 2 then Response.mk 500 "boom" ([] : List Nat)
        else Response.mk 200 "" (List.replicate 100 0)) 0 5
      = .error (.repositoryError "API request error: boom") := by
  have h := claim_C8
    (fun p => if p = 2 then Response.mk 500 "boom" ([] : List Nat)
      else Response.mk 200 "" (List.replicate 100 0)) 0 5 2
    (by omega) (by omega)
    (by
      intro p hp1 hp2
      have hp : p = 1 := by omega
      subst hp
      exact ⟨rfl, by decide, Or.inl rfl⟩)
    (by decide)
  exact h

end RepoAnalyzer
